import Mathlib

/-!
Shallow embedding of the computational core of MotorEffMAP
(src/MotorEffMAP_Logic.py): data normalization, operating-envelope
extraction, grid synthesis, interpolation cutoff and masking, and
area-ratio aggregation.

Modelling conventions
  - machine floats are modelled as exact rationals;
  - numpy / pandas / scipy primitives used by the source are given
    explicit models, documented at each definition;
  - fallible code returns Except; a scipy or numpy exception that the
    source does not catch is modelled as an error value;
  - the abstract scipy objects a stage merely passes along (the fitted
    smoothing spline, the griddata interpolant values) are parameters of
    the embedding, so theorems hold for every possible behaviour of the
    library object.
-/

namespace MotorEffMAP

/-- One row of the processed dataframe built by `filter_data`
(columns Speed, Torque, P_Motor, Eff_MCU, Eff_Motor, Eff_SYS, U_dc). -/
structure MRow where
  speed : ℚ
  torque : ℚ
  p_motor : ℚ
  eff_mcu : ℚ
  eff_motor : ℚ
  eff_sys : ℚ
  u_dc : ℚ
deriving DecidableEq

/-- Python `round` (also the `__round__` of a numpy float): round half to
even.  Used by `normalization` for the grouped-speed average. -/
def pyRound (q : ℚ) : ℤ :=
  let n := ⌊q⌋
  let f := q - (n : ℚ)
  if f < 1/2 then n
  else if 1/2 < f then n + 1
  else if Even n then n else n + 1

/-! ## Normalizer: speed grouping (MotorEffMAP_Logic.py lines 148-171)

The source walks the sorted speed array with state `speed_cnt` (running
sum of the current group), `count` (group size minus one) and writes the
rounded group average over the slice of the just-closed group; the final
group is flushed after the loop.  `gogo` is the loop with the slice
writes turned into emitted `replicate` segments: `sum` is `speed_cnt`,
`cnt` is `count`, `prev` is `speeds[i]`. -/

/-- Loop body of the speed-grouping pass of `normalization`. -/
def gogo (sum : ℚ) (cnt : ℕ) (prev : ℚ) : List ℚ → List ℚ
  | [] => List.replicate (cnt + 1) ((pyRound (sum / (cnt + 1)) : ℤ) : ℚ)
  | s :: rest =>
    if |prev - s| ≤ 6 then gogo (sum + s) (cnt + 1) s rest
    else
      List.replicate (cnt + 1) ((pyRound (sum / (cnt + 1)) : ℤ) : ℚ) ++ gogo s 0 s rest

/-- The speed-grouping pass of `normalization` (lines 150-171): replaces
each speed by the rounded average of its gap-at-most-6 group. -/
def groupSpeeds : List ℚ → List ℚ
  | [] => []
  | s :: rest => gogo s 0 s rest

/-- Specification-side decomposition of a speed list into the maximal
runs the source's loop accumulates: a run grows while the gap between
consecutive elements is at most 6 and is closed at the first larger gap
(`run` is the current run, `prev` its last element). -/
def consumeRuns (run : List ℚ) (prev : ℚ) : List ℚ → List (List ℚ)
  | [] => [run]
  | s :: rest =>
    if |prev - s| ≤ 6 then consumeRuns (run ++ [s]) s rest
    else run :: consumeRuns [s] s rest

/-- Maximal gap-at-most-6 runs of a speed list. -/
def splitRuns : List ℚ → List (List ℚ)
  | [] => []
  | s :: rest => consumeRuns [s] s rest

/-- Replacement of every element of a run by the rounded arithmetic mean
of the run. -/
def runAvg (r : List ℚ) : List ℚ :=
  List.replicate r.length ((pyRound (r.sum / (r.length : ℚ)) : ℤ) : ℚ)

/-! ## Normalizer: efficiency filter (lines 179-182) -/

/-- The three efficiency range filters of `normalization` step 5:
`df[(df[c] >= 0) & (df[c] < 100)]` applied for Eff_MCU, Eff_Motor,
Eff_SYS in turn. -/
def effFilter (df : List MRow) : List MRow :=
  ((df.filter (fun r => 0 ≤ r.eff_mcu ∧ r.eff_mcu < 100)).filter
      (fun r => 0 ≤ r.eff_motor ∧ r.eff_motor < 100)).filter
    (fun r => 0 ≤ r.eff_sys ∧ r.eff_sys < 100)

/-! ### Lemmas for the speed-grouping pass -/

lemma consumeRuns_flatten (rest : List ℚ) :
    ∀ (run : List ℚ) (prev : ℚ), (consumeRuns run prev rest).flatten = run ++ rest := by
  induction rest with
  | nil => intro run prev; simp [consumeRuns]
  | cons s rest ih =>
    intro run prev
    by_cases h : |prev - s| ≤ 6
    · simp [consumeRuns, h, ih]
    · simp [consumeRuns, h, ih]

lemma gogo_eq (rest : List ℚ) :
    ∀ (run : List ℚ) (prev : ℚ), run ≠ [] → run.getLast? = some prev →
      gogo run.sum (run.length - 1) prev rest =
        ((consumeRuns run prev rest).map runAvg).flatten := by
  induction rest with
  | nil =>
    intro run prev hne _
    have hlen : run.length - 1 + 1 = run.length :=
      Nat.succ_pred_eq_of_pos (List.length_pos.mpr hne)
    have hcast : ((run.length - 1 : ℕ) : ℚ) + 1 = (run.length : ℚ) := by
      exact_mod_cast congrArg (fun n : ℕ => (n : ℚ)) hlen
    simp [gogo, consumeRuns, runAvg, hlen, hcast]
  | cons s rest ih =>
    intro run prev hne hlast
    have hlen : run.length - 1 + 1 = run.length :=
      Nat.succ_pred_eq_of_pos (List.length_pos.mpr hne)
    have hcast : ((run.length - 1 : ℕ) : ℚ) + 1 = (run.length : ℚ) := by
      exact_mod_cast congrArg (fun n : ℕ => (n : ℚ)) hlen
    by_cases h : |prev - s| ≤ 6
    · have h1 : (run ++ [s]).sum = run.sum + s := by simp
      have h2 : (run ++ [s]).length - 1 = run.length - 1 + 1 := by
        simp [hlen]
      have h3 : (run ++ [s]).getLast? = some s := by
        simp [List.getLast?_concat]
      have := ih (run ++ [s]) s (by simp) h3
      rw [h1, h2] at this
      simpa [gogo, consumeRuns, h] using this
    · have := ih [s] s (by simp) (by simp)
      simp only [List.sum_cons, List.sum_nil, add_zero, List.length_cons,
        List.length_nil] at this
      simp [gogo, consumeRuns, h, runAvg, hlen, hcast, this]

lemma groupSpeeds_eq (l : List ℚ) :
    groupSpeeds l = ((splitRuns l).map runAvg).flatten := by
  cases l with
  | nil => simp [groupSpeeds, splitRuns]
  | cons s rest =>
    have := gogo_eq rest [s] s (by simp) (by simp)
    simpa [groupSpeeds, splitRuns] using this

lemma splitRuns_flatten (l : List ℚ) : (splitRuns l).flatten = l := by
  cases l with
  | nil => simp [splitRuns]
  | cons s rest => simpa [splitRuns] using consumeRuns_flatten rest [s] s

/-! ### Claims C2 and C3 -/

/-- C2: after sorting by speed, every maximal run of consecutive speeds
whose adjacent gaps are each at most 6 has all its values replaced by the
rounded (half-to-even, as Python `round`) arithmetic mean of the run; the
decomposition into runs is exhaustive (flattening the runs returns the
input), the final run is flushed after the scan, a size-1 dataset still
emits one group, and sorted speeds [100, 104, 200] become
[102, 102, 200]. -/
theorem C2_speed_grouping :
    (∀ l : List ℚ, groupSpeeds l = ((splitRuns l).map runAvg).flatten) ∧
    (∀ l : List ℚ, (splitRuns l).flatten = l) ∧
    groupSpeeds [100, 104, 200] = [102, 102, 200] ∧
    (∀ s : ℚ, groupSpeeds [s] = [((pyRound s : ℤ) : ℚ)]) := by
  refine ⟨groupSpeeds_eq, splitRuns_flatten, ?_, ?_⟩
  · norm_num [groupSpeeds, gogo, pyRound, Int.even_iff, List.replicate]
  · intro s
    simp [groupSpeeds, gogo]

/-- C3: the efficiency filter of `normalization` keeps exactly the rows
whose MCU, Motor and System efficiencies all lie in the half-open range
[0, 100); a row with any channel equal to 100 is dropped, a row with a
channel equal to 0 is kept. -/
theorem C3_efficiency_filter :
    (∀ (df : List MRow) (r : MRow),
      r ∈ effFilter df ↔
        r ∈ df ∧ (0 ≤ r.eff_mcu ∧ r.eff_mcu < 100) ∧
          (0 ≤ r.eff_motor ∧ r.eff_motor < 100) ∧
          (0 ≤ r.eff_sys ∧ r.eff_sys < 100)) ∧
    effFilter [⟨100, 10, 1, 100, 50, 50, 300⟩] = [] ∧
    effFilter [⟨100, 10, 1, 0, 0, 0, 300⟩] = [⟨100, 10, 1, 0, 0, 0, 300⟩] := by
  refine ⟨?_, by norm_num [effFilter], by norm_num [effFilter]⟩
  intro df r
  constructor
  · intro h
    simp only [effFilter, List.mem_filter, decide_eq_true_eq] at h
    tauto
  · intro h
    simp only [effFilter, List.mem_filter, decide_eq_true_eq]
    tauto

/-! ## Grid Synthesizer: per-column torque fill
(MotorEffMAP_Logic.py lines 258-283) -/

/-- `np.arange(start, stop, step)` in exact arithmetic: the values
`start + k·step` for `0 ≤ k < ⌈(stop - start)/step⌉` (numpy's length
formula, clamped at zero). -/
def arangeGen (start stop step : ℚ) : List ℚ :=
  (List.range (⌈(stop - start) / step⌉.toNat)).map (fun k : ℕ => start + (k : ℚ) * step)

/-- `np.isclose(a, b)` with the default tolerances
`atol = 1e-8`, `rtol = 1e-5`: `|a - b| ≤ atol + rtol·|b|`. -/
def isclose (a b : ℚ) : Bool := |a - b| ≤ 1/100000000 + (1/100000) * |b|

/-- One column's torque fill (lines 267-274): `np.arange(0,
max + step/1000, step)`, kept only while `≤ max`; the column max is
appended when the last kept value is not `np.isclose` to it; an empty
sequence becomes `[0, max]` for positive max and `[0]` otherwise. -/
def fill_column (tstep m : ℚ) : List ℚ :=
  let ct := (arangeGen 0 (m + tstep / 1000) tstep).filter (fun t => decide (t ≤ m))
  match ct.getLast? with
  | some lastv => if !(isclose lastv m) then ct ++ [m] else ct
  | none => if 0 < m then [(0 : ℚ), m] else [0]

/-! ### Lemmas for the torque fill -/

lemma filter_map_comm (f : ℕ → ℚ) (p : ℚ → Bool) :
    ∀ l : List ℕ, (l.map f).filter p = (l.filter (fun k => p (f k))).map f := by
  intro l
  induction l with
  | nil => simp
  | cons a l ih =>
    by_cases h : p (f a)
    · simp [List.filter_cons, h, ih]
    · simp [List.filter_cons, h, ih]

lemma range_filter_le (F : ℕ) : ∀ n : ℕ,
    (List.range n).filter (fun k => decide (k ≤ F)) = List.range (min n (F + 1)) := by
  intro n
  induction n with
  | zero => simp
  | succ n ih =>
    rw [List.range_succ, List.filter_append, ih]
    by_cases h : n ≤ F
    · have h1 : min (n + 1) (F + 1) = n + 1 := by omega
      have h2 : min n (F + 1) = n := by omega
      simp [h, h1, h2, List.range_succ]
    · have h1 : min (n + 1) (F + 1) = min n (F + 1) := by omega
      simp [h, h1]

/-- Closed form of the filtered arange of a column: exactly the
multiples `k·step` for `0 ≤ k ≤ ⌊m/step⌋`. -/
lemma fill_core (s m : ℚ) (hs : 0 < s) (hm : 0 ≤ m) :
    (arangeGen 0 (m + s / 1000) s).filter (fun t => decide (t ≤ m))
      = (List.range (⌊m / s⌋.toNat + 1)).map (fun k : ℕ => (k : ℚ) * s) := by
  have hfl : (0 : ℤ) ≤ ⌊m / s⌋ := Int.floor_nonneg.mpr (div_nonneg hm hs.le)
  have hpred : ∀ k : ℕ, ((k : ℚ) * s ≤ m) ↔ k ≤ ⌊m / s⌋.toNat := by
    intro k
    rw [← le_div_iff₀ hs]
    constructor
    · intro h
      have : (k : ℤ) ≤ ⌊m / s⌋ := Int.le_floor.mpr (by exact_mod_cast h)
      omega
    · intro h
      have hz : (k : ℤ) ≤ ⌊m / s⌋ := by omega
      have := Int.le_floor.mp hz
      exact_mod_cast this
  have hN : ⌊m / s⌋.toNat + 1 ≤ ⌈(m + s / 1000 - 0) / s⌉.toNat := by
    have h2 : (m + s / 1000 - 0) / s = m / s + 1 / 1000 := by
      rw [sub_zero, add_div, div_div, mul_comm, ← div_div, div_self hs.ne', one_div]
    have hlt : ((⌊m / s⌋ : ℚ)) < (m + s / 1000 - 0) / s := by
      rw [h2]
      have h1 : (⌊m / s⌋ : ℚ) ≤ m / s := Int.floor_le _
      have h3 : (0 : ℚ) < 1 / 1000 := by norm_num
      linarith
    have := Int.lt_ceil.mpr hlt
    omega
  unfold arangeGen
  rw [filter_map_comm]
  have hcong : (List.range ⌈(m + s / 1000 - 0) / s⌉.toNat).filter
        (fun k : ℕ => decide (0 + (k : ℚ) * s ≤ m))
      = (List.range ⌈(m + s / 1000 - 0) / s⌉.toNat).filter
        (fun k : ℕ => decide (k ≤ ⌊m / s⌋.toNat)) := by
    apply List.filter_congr
    intro k _
    simp only [zero_add, decide_eq_decide]
    exact hpred k
  rw [hcong, range_filter_le, min_eq_right hN]
  apply List.map_congr_left
  intro k _
  simp

/-- The multiples list ends in `F·s`. -/
lemma multiples_getLast (s : ℚ) (F : ℕ) :
    ((List.range (F + 1)).map (fun k : ℕ => (k : ℚ) * s)).getLast? = some ((F : ℚ) * s) := by
  rw [List.getLast?_eq_head?_reverse, ← List.map_reverse, List.range_succ]
  simp

/-- Characterization of `fill_column` for a positive step and a
nonnegative column max: the even multiples up to `⌊m/step⌋`, with `m`
appended exactly when the last multiple is not `np.isclose` to `m`. -/
lemma fill_column_eq (tstep m : ℚ) (hs : 0 < tstep) (hm : 0 ≤ m) :
    fill_column tstep m =
      if isclose ((⌊m / tstep⌋.toNat : ℚ) * tstep) m
      then (List.range (⌊m / tstep⌋.toNat + 1)).map (fun k : ℕ => (k : ℚ) * tstep)
      else ((List.range (⌊m / tstep⌋.toNat + 1)).map (fun k : ℕ => (k : ℚ) * tstep)) ++ [m] := by
  simp only [fill_column]
  rw [fill_core tstep m hs hm, multiples_getLast]
  by_cases hcl : isclose ((⌊m / tstep⌋.toNat : ℚ) * tstep) m <;> simp [hcl]

lemma multiple_le (s m : ℚ) (hs : 0 < s) (hm : 0 ≤ m) (k : ℕ)
    (hk : k ≤ ⌊m / s⌋.toNat) : (k : ℚ) * s ≤ m := by
  have hfl : (0 : ℤ) ≤ ⌊m / s⌋ := Int.floor_nonneg.mpr (div_nonneg hm hs.le)
  have hz : (k : ℤ) ≤ ⌊m / s⌋ := by omega
  have h1 : ((k : ℤ) : ℚ) ≤ m / s := le_trans (by exact_mod_cast Int.cast_le.mpr hz) (Int.floor_le _)
  rw [← le_div_iff₀ hs]
  exact_mod_cast h1

lemma fill_column_ne_nil (tstep m : ℚ) : fill_column tstep m ≠ [] := by
  simp only [fill_column]
  cases hL : ((arangeGen 0 (m + tstep / 1000) tstep).filter
      (fun t => decide (t ≤ m))).getLast? with
  | none =>
    by_cases h : 0 < m <;> simp [h]
  | some lastv =>
    have hne : (arangeGen 0 (m + tstep / 1000) tstep).filter
        (fun t => decide (t ≤ m)) ≠ [] := by
      intro h0
      rw [h0] at hL
      simp at hL
    by_cases h : isclose lastv m <;> simp [h, hne]

/-- C1: for a positive torque step, every synthesized column fill is
nonempty; when the column max `m` is nonnegative, every entry except
possibly the last is the even multiple `i·step`, every entry is at most
`m`, and the last entry is `np.isclose` to `m` (it is `m` itself when
the last even multiple is not close to `m`); when the filtered arange is
empty the fill is `[0, m]` for positive `m` and `[0]` otherwise. -/
theorem C1_column_fill_envelope (tstep m : ℚ) (hs : 0 < tstep) :
    fill_column tstep m ≠ [] ∧
    (0 ≤ m →
      (∀ i : ℕ, i + 1 < (fill_column tstep m).length →
        (fill_column tstep m).get? i = some ((i : ℚ) * tstep)) ∧
      (∀ x ∈ fill_column tstep m, x ≤ m) ∧
      (∃ lv, (fill_column tstep m).getLast? = some lv ∧ isclose lv m = true)) ∧
    ((arangeGen 0 (m + tstep / 1000) tstep).filter (fun t => decide (t ≤ m)) = [] →
      fill_column tstep m = if 0 < m then [(0 : ℚ), m] else [0]) := by
  refine ⟨fill_column_ne_nil tstep m, ?_, ?_⟩
  · intro hm
    set F := ⌊m / tstep⌋.toNat with hF
    have hch := fill_column_eq tstep m hs hm
    by_cases hcl : isclose ((F : ℚ) * tstep) m
    · rw [hch, if_pos hcl]
      refine ⟨?_, ?_, ?_⟩
      · intro i hi
        simp only [List.length_map, List.length_range] at hi
        rw [List.get?_eq_getElem?, List.getElem?_map, List.getElem?_range (by omega : i < F + 1)]
        simp
      · intro x hx
        obtain ⟨k, hk, rfl⟩ := List.mem_map.mp hx
        exact multiple_le tstep m hs hm k (Nat.lt_succ_iff.mp (List.mem_range.mp hk))
      · exact ⟨(F : ℚ) * tstep, multiples_getLast tstep F, hcl⟩
    · rw [hch, if_neg hcl]
      refine ⟨?_, ?_, ?_⟩
      · intro i hi
        simp only [List.length_append, List.length_map, List.length_range,
          List.length_cons, List.length_nil] at hi
        rw [List.get?_append (by simp; omega)]
        rw [List.get?_eq_getElem?, List.getElem?_map, List.getElem?_range (by omega : i < F + 1)]
        simp
      · intro x hx
        rcases List.mem_append.mp hx with hx | hx
        · obtain ⟨k, hk, rfl⟩ := List.mem_map.mp hx
          exact multiple_le tstep m hs hm k (Nat.lt_succ_iff.mp (List.mem_range.mp hk))
        · simp only [List.mem_singleton] at hx
          exact le_of_eq hx
      · refine ⟨m, ?_, ?_⟩
        · simp [List.getLast?_concat]
        · unfold isclose
          simp only [sub_self, abs_zero, decide_eq_true_eq]
          positivity
  · intro hempty
    simp only [fill_column]
    rw [hempty]
    simp

/-- Witness for C1 at step 5 and column max 12: the fill is
[0, 5, 10, 12]. -/
theorem C1_column_fill_envelope_witness :
    (0 : ℚ) < 5 ∧ fill_column 5 12 ≠ [] ∧
      (∃ lv, (fill_column 5 12).getLast? = some lv ∧ isclose lv 12 = true) := by
  refine ⟨by norm_num, (C1_column_fill_envelope 5 12 (by norm_num)).1,
    ((C1_column_fill_envelope 5 12 (by norm_num)).2.1 (by norm_num)).2.2⟩

/-! ## Envelope Extractor (MotorEffMAP_Logic.py lines 187-214)

`get_external_characteristics` computes the per-grouped-speed maximum
torque curve, then fits `UnivariateSpline(s=None, k=3)` when more than 3
sample points exist (any exception falls back to
`interp1d(kind='linear', fill_value="extrapolate")`), else calls
`interp1d` directly.  The fitted spline is an opaque scipy object: it is
modelled as an `Option (ℚ → ℚ)` parameter (`none` models the fit
raising).  `interp1d` raises `ValueError` when given fewer than 2 sample
points; that uncaught exception is the `.error` value. -/

/-- Linear interpolation through two points, evaluated at `x` (also the
constant-slope extrapolation formula beyond the sample range). -/
def lerp (p q : ℚ × ℚ) (x : ℚ) : ℚ :=
  p.2 + (x - p.1) * (q.2 - p.2) / (q.1 - p.1)

/-- Evaluation of scipy `interp1d(kind='linear',
fill_value="extrapolate")` on a sorted sample list: each query uses the
segment it falls in, the first segment below the range and the last
segment above it. -/
def pwl : List (ℚ × ℚ) → ℚ → ℚ
  | [], _ => 0
  | [p], _ => p.2
  | p :: q :: rest, x => if x ≤ q.1 then lerp p q x else pwl (q :: rest) x

/-- Construction of the scipy `interp1d` object: raises `ValueError`
("x and y arrays must have at least 2 entries") on fewer than 2 sample
points, otherwise yields a total extrapolating function. -/
def interp1d_linear (pts : List (ℚ × ℚ)) : Except String (ℚ → ℚ) :=
  if pts.length < 2 then .error "x and y arrays must have at least 2 entries"
  else .ok (pwl pts)

/-- The curve-fitting part of `get_external_characteristics`
(lines 202-212): `spline?` is the outcome of the `UnivariateSpline`
attempt (`none` when the fit raises). -/
def get_external_characteristics (maxCurve : List (ℚ × ℚ))
    (spline? : Option (ℚ → ℚ)) : Except String (ℚ → ℚ) :=
  if maxCurve.length > 3 then
    match spline? with
    | some f => .ok f
    | none => interp1d_linear maxCurve
  else interp1d_linear maxCurve

/-! ### Claim C7 -/

/-- C7 counterexample: with a single envelope sample point (a normalized
dataset whose speeds all grouped to one value), the linear fallback
itself raises `ValueError` instead of returning a callable curve, so the
envelope extractor is not exception-free. -/
theorem C7_counterexample :
    get_external_characteristics [((100 : ℚ), (50 : ℚ))] none =
      .error "x and y arrays must have at least 2 entries" := by
  rfl

/-- C7 (amended): the extractor uses the spline exactly when more than 3
envelope points exist and the fit succeeds; on 3 or fewer points, or
when the fit fails, it falls back to `interp1d` linear interpolation
with extrapolation, which yields a total function (callable at any
speed, including 0 and beyond the maximum) whenever at least 2 sample
points exist — but raises `ValueError` on 0 or 1 points. -/
theorem C7_envelope_fallback (maxCurve : List (ℚ × ℚ)) (spline? : Option (ℚ → ℚ)) :
    (∀ f, maxCurve.length > 3 → spline? = some f →
      get_external_characteristics maxCurve spline? = .ok f) ∧
    (maxCurve.length > 3 → spline? = none →
      get_external_characteristics maxCurve spline? = interp1d_linear maxCurve) ∧
    (maxCurve.length ≤ 3 →
      get_external_characteristics maxCurve spline? = interp1d_linear maxCurve) ∧
    (2 ≤ maxCurve.length → interp1d_linear maxCurve = .ok (pwl maxCurve)) ∧
    (maxCurve.length < 2 →
      interp1d_linear maxCurve = .error "x and y arrays must have at least 2 entries") := by
  refine ⟨?_, ?_, ?_, ?_, ?_⟩
  · intro f hlen hsp
    simp [get_external_characteristics, hlen, hsp]
  · intro hlen hsp
    simp [get_external_characteristics, hlen, hsp]
  · intro hlen
    have h : ¬maxCurve.length > 3 := by omega
    simp [get_external_characteristics, h]
  · intro hlen
    simp [interp1d_linear, Nat.not_lt.mpr hlen]
  · intro hlen
    simp [interp1d_linear, hlen]

/-- Witness for C7 (amended) at a two-point envelope: the fallback
produces the total piecewise-linear extrapolating curve. -/
theorem C7_envelope_fallback_witness :
    ((2 : ℕ) ≤ ([((0 : ℚ), (10 : ℚ)), (100, 50)] : List (ℚ × ℚ)).length) ∧
      interp1d_linear [((0 : ℚ), (10 : ℚ)), (100, 50)] =
        .ok (pwl [((0 : ℚ), (10 : ℚ)), (100, 50)]) := by
  exact ⟨by norm_num,
    (C7_envelope_fallback [((0 : ℚ), (10 : ℚ)), (100, 50)] none).2.2.2.1 (by norm_num)⟩

/-! ## Grid Synthesizer: speed axis (MotorEffMAP_Logic.py lines 231-238)

`n_speed_steps = int(max_speed / speed_grid_step) + 1` and
`xi_speed_axis = np.linspace(0, max_speed, n_speed_steps)`. -/

/-- Python `int()` on a float: truncation toward zero. -/
def pyInt (q : ℚ) : ℤ := if q < 0 then -⌊-q⌋ else ⌊q⌋

lemma pyInt_of_nonneg (q : ℚ) (h : 0 ≤ q) : pyInt q = ⌊q⌋ := by
  unfold pyInt
  rw [if_neg (not_lt.mpr h)]

/-- The speed axis: `np.linspace(0, max_speed, n)` with
`n = int(max_speed/step) + 1`.  `np.linspace` with `num = 1` returns
`[start]`, i.e. `[0]`; with `num ≥ 2` it returns the evenly spaced
values `max_speed·i/(n-1)` whose last entry is exactly `max_speed`.
The source raises before a nonpositive `num` ever yields a value (an
`OverflowError` at `int(inf)` for a zero step, numpy's `ValueError` for
a negative `num`, and `np.max` of the empty axis for `num = 0`); those
aborts are modelled as the corresponding error values of
`synthesize_grid`, which evaluates this function only when `n ≥ 1` —
the `[]` of the `n ≤ 0` branch here is an out-of-domain value the
pipeline model never reads. -/
def speed_axis (max_speed gstep : ℚ) : List ℚ :=
  let n : ℤ := pyInt (max_speed / gstep) + 1
  if n ≤ 0 then []
  else if n = 1 then [0]
  else (List.range n.toNat).map (fun i : ℕ => max_speed * (i : ℚ) / ((n.toNat : ℚ) - 1))

lemma map_range_getLast {α : Type} (f : ℕ → α) (n : ℕ) :
    ((List.range (n + 1)).map f).getLast? = some (f n) := by
  rw [List.getLast?_eq_head?_reverse, ← List.map_reverse, List.range_succ]
  simp

/-- Closed form of `speed_axis` for positive inputs. -/
lemma speed_axis_eq (ms gs : ℚ) (hms : 0 < ms) (hgs : 0 < gs) :
    speed_axis ms gs =
      if ⌊ms / gs⌋ = 0 then [0]
      else (List.range (⌊ms / gs⌋.toNat + 1)).map
        (fun i : ℕ => ms * (i : ℚ) / (⌊ms / gs⌋.toNat : ℚ)) := by
  have hdiv : 0 ≤ ms / gs := le_of_lt (div_pos hms hgs)
  have hF0 : 0 ≤ ⌊ms / gs⌋ := Int.floor_nonneg.mpr hdiv
  simp only [speed_axis, pyInt_of_nonneg _ hdiv]
  rw [if_neg (by omega : ¬⌊ms / gs⌋ + 1 ≤ 0)]
  by_cases h0 : ⌊ms / gs⌋ = 0
  · rw [if_pos (by omega), if_pos h0]
  · rw [if_neg (by omega), if_neg h0]
    have hn : (⌊ms / gs⌋ + 1).toNat = ⌊ms / gs⌋.toNat + 1 := by omega
    rw [hn]
    apply List.map_congr_left
    intro i _
    congr 1
    push_cast
    ring

/-- C9 counterexample: a dataset with maximum speed 30 and the default
speed-grid step 50 yields `int(30/50) + 1 = 1` linspace point, so the
axis is the single point `[0]`: its last point is 0, not the dataset
maximum 30. -/
theorem C9_counterexample :
    speed_axis 30 50 = [0] ∧ (speed_axis 30 50).getLast? = some 0 ∧ (0 : ℚ) ≠ 30 := by
  have h : speed_axis 30 50 = [0] := by
    rw [speed_axis_eq 30 50 (by norm_num) (by norm_num)]
    norm_num
  exact ⟨h, by rw [h]; rfl, by norm_num⟩

/-- C9 (amended): for positive maximum speed and step, the axis always
has exactly `⌊max/step⌋ + 1` points; when additionally `step ≤ max` the
points are the evenly spaced values `max·i/⌊max/step⌋` starting at 0 and
ending exactly at the dataset maximum; when `max < step` the axis
degenerates to the single point `[0]` and does not end at the maximum. -/
theorem C9_speed_axis (ms gs : ℚ) (hms : 0 < ms) (hgs : 0 < gs) :
    (speed_axis ms gs).length = ⌊ms / gs⌋.toNat + 1 ∧
    (gs ≤ ms →
      (∀ i : ℕ, i < ⌊ms / gs⌋.toNat + 1 →
        (speed_axis ms gs).get? i = some (ms * (i : ℚ) / (⌊ms / gs⌋.toNat : ℚ))) ∧
      (speed_axis ms gs).get? 0 = some 0 ∧
      (speed_axis ms gs).getLast? = some ms) ∧
    (ms < gs → speed_axis ms gs = [0]) := by
  have hdiv : 0 ≤ ms / gs := le_of_lt (div_pos hms hgs)
  have hF0 : 0 ≤ ⌊ms / gs⌋ := Int.floor_nonneg.mpr hdiv
  have hax := speed_axis_eq ms gs hms hgs
  refine ⟨?_, ?_, ?_⟩
  · rw [hax]
    by_cases h0 : ⌊ms / gs⌋ = 0
    · simp [h0]
    · simp [h0]
  · intro hle
    have h1 : (1 : ℚ) ≤ ms / gs := (one_le_div hgs).mpr hle
    have hF1 : 1 ≤ ⌊ms / gs⌋ := by
      have := Int.le_floor.mpr (by exact_mod_cast h1 : ((1 : ℤ) : ℚ) ≤ ms / gs)
      omega
    have h0 : ⌊ms / gs⌋ ≠ 0 := by omega
    have hFQ : ((⌊ms / gs⌋.toNat : ℚ)) ≠ 0 := by
      have : (1 : ℕ) ≤ ⌊ms / gs⌋.toNat := by omega
      exact_mod_cast Nat.cast_pos.mpr (by omega : 0 < ⌊ms / gs⌋.toNat) |>.ne'
    rw [hax, if_neg h0]
    refine ⟨?_, ?_, ?_⟩
    · intro i hi
      rw [List.get?_eq_getElem?, List.getElem?_map, List.getElem?_range hi]
      simp
    · rw [List.get?_eq_getElem?, List.getElem?_map,
        List.getElem?_range (by omega : 0 < ⌊ms / gs⌋.toNat + 1)]
      simp
    · rw [map_range_getLast]
      congr 1
      field_simp
  · intro hlt
    have h1 : ms / gs < 1 := (div_lt_one hgs).mpr hlt
    have h0 : ⌊ms / gs⌋ = 0 := by
      have := Int.floor_eq_zero_iff.mpr ⟨hdiv, h1⟩
      exact this
    rw [hax, if_pos h0]

/-- Witness for C9 (amended) at maximum speed 200 and step 50: the axis
ends exactly at 200. -/
theorem C9_speed_axis_witness :
    (0 : ℚ) < 200 ∧ (0 : ℚ) < 50 ∧ (50 : ℚ) ≤ 200 ∧
      (speed_axis 200 50).getLast? = some 200 := by
  refine ⟨by norm_num, by norm_num, by norm_num, ?_⟩
  exact ((C9_speed_axis 200 50 (by norm_num) (by norm_num)).2.1 (by norm_num)).2.2

/-! ## Grid Synthesizer and Interpolator (MotorEffMAP_Logic.py lines 216-331)

`process_map_data` computes the speed axis, the per-column torque fills
(padded with NaN — modelled as `none` — to `max_rows` and clipped),
interpolates with `scipy.interpolate.griddata` and applies the
start-speed / start-torque cutoff masks.  The griddata interpolant values
are parameters `interpE interpP : ℚ → ℚ → Option ℚ` (`none` at a query
models a NaN result, e.g. outside the convex hull of the source cloud);
`griddata(method='linear')` raises scipy's `QhullError` when the source
cloud cannot be triangulated (fewer than 3 affinely independent points),
which the source does not catch. -/

/-- The sentinel-padded grid of one dataset before interpolation. -/
structure SynthGrid where
  axis : List ℚ
  maxRows : ℕ
  Ycols : List (List (Option ℚ))
deriving DecidableEq

/-- The uncaught exceptions and the explicit `return None` of
`process_map_data`.  `emptyDataset` is the `ValueError` of
`int(nan)` reached when the dataframe is empty (`df['Speed'].max()` is
NaN and `NaN == 0` is false); `noValidSpeedRange` is the distinct
`return None` taken when `max_speed == 0`; `zeroSpeedStep` is the
`OverflowError` of `int(inf)` when the configured speed-grid step is 0
(numpy float division yields infinity); `negativeLinspaceNum` is
numpy's `ValueError` when `int(max_speed/step) + 1` is negative;
`emptyEdgeMax` is the `ValueError` of `np.max` on the empty
`edge_torques` array when that count is 0; `negativeDims` is numpy's
`ValueError` for a negative `max_rows` shape; `qhullError` is scipy's
triangulation failure. -/
inductive PipeError
  | emptyDataset
  | noValidSpeedRange
  | zeroSpeedStep
  | negativeLinspaceNum
  | emptyEdgeMax
  | negativeDims
  | qhullError
deriving DecidableEq

/-- `df['Speed'].max()`: `none` on an empty dataframe (pandas NaN). -/
def maxSpeedOf (df : List MRow) : Option ℚ := (df.map MRow.speed).max?

/-- `np.max` of a nonempty list.  On an empty array `np.max` raises
`ValueError`; that abort is modelled as the `emptyEdgeMax` guard of
`synthesize_grid`, which applies this function only to the nonempty
axis — the `0` of the `[]` branch here is an out-of-domain value the
pipeline model never reads. -/
def listMax : List ℚ → ℚ
  | [] => 0
  | h :: t => t.foldl max h

/-- One column of the `YI` matrix: the torque fill written into rows
`0..n_pts`, clipped at `max_rows`, with NaN (`none`) padding in the
remaining rows (lines 276-283). -/
def pad_clip (maxRows : ℕ) (l : List ℚ) : List (Option ℚ) :=
  ((l.take maxRows).map some) ++ List.replicate (maxRows - l.length) none

/-- The grid-synthesis part of `process_map_data` (lines 221-283): max
speed, zero-speed check, `n_speed_steps = int(max_speed/step) + 1` (an
`OverflowError` at `int(inf)` when the step is 0), the linspace speed
axis (a `ValueError` for a negative count; `np.max` of the empty
`edge_torques` raises for a zero count), `max_rows =
int(np.ceil(max_edge_torque/torque_step)) + 2` (a `ValueError` at
`np.full` when negative), and the per-column fills. -/
def synthesize_grid (sstep tstep : ℚ) (df : List MRow) (edge : ℚ → ℚ) :
    Except PipeError SynthGrid :=
  match maxSpeedOf df with
  | none => .error .emptyDataset
  | some ms =>
    if ms = 0 then .error .noValidSpeedRange
    else if sstep = 0 then .error .zeroSpeedStep
    else
      let n : ℤ := pyInt (ms / sstep) + 1
      if n < 0 then .error .negativeLinspaceNum
      else if n = 0 then .error .emptyEdgeMax
      else
        let axis := speed_axis ms sstep
        let maxRowsZ : ℤ := ⌈listMax (axis.map edge) / tstep⌉ + 2
        if maxRowsZ < 0 then .error .negativeDims
        else .ok ⟨axis, maxRowsZ.toNat,
          axis.map (fun x => pad_clip maxRowsZ.toNat (fill_column tstep (edge x)))⟩

/-- The cutoff condition of line 310: `(XI < start_speed) | (YI <
start_torque)`; a NaN `YI` entry compares false. -/
def cutoffB (ss st x : ℚ) (yo : Option ℚ) : Bool :=
  decide (x < ss) || (match yo with | some y => decide (y < st) | none => false)

/-- One cell of the cutoff-masked `ZI` layers (lines 300-314): NaN
outside the fill, NaN in the cutoff region, otherwise the interpolated
value. -/
def applyCutoffZ (ss st x : ℚ) (yo zo : Option ℚ) : Option ℚ :=
  match yo with
  | none => none
  | some y => if x < ss ∨ y < st then none else zo

/-- One cell of `mask_valid_geo` (line 320):
`(~np.isnan(YI)) & (~cutoff_mask)`. -/
def geoMaskPoint (ss st x : ℚ) (yo : Option ℚ) : Bool :=
  match yo with
  | none => false
  | some y => !(decide (x < ss) || decide (y < st))

/-- The interpolated-and-cutoff `ZI` layer, column by column. -/
def gridZ (interp : ℚ → ℚ → Option ℚ) (ss st : ℚ) (axis : List ℚ)
    (Ycols : List (List (Option ℚ))) : List (List (Option ℚ)) :=
  List.zipWith (fun x ycol => ycol.map (fun yo => applyCutoffZ ss st x yo (yo.bind (interp x))))
    axis Ycols

/-- The `mask_valid_geo` matrix, column by column. -/
def gridMask (ss st : ℚ) (axis : List ℚ) (Ycols : List (List (Option ℚ))) :
    List (List Bool) :=
  List.zipWith (fun x ycol => ycol.map (fun yo => geoMaskPoint ss st x yo)) axis Ycols

/-- Whether a 2-D point cloud admits a Delaunay triangulation: it has
three affinely independent points.  `scipy.interpolate.griddata` with
`method='linear'` raises `QhullError` otherwise. -/
def canTriangulate (pts : List (ℚ × ℚ)) : Bool :=
  pts.any (fun p => pts.any (fun q => pts.any (fun r =>
    decide ((q.1 - p.1) * (r.2 - p.2) - (q.2 - p.2) * (r.1 - p.1) ≠ 0))))

/-- The returned tuple of `process_map_data` (line 331):
`XI, YI, ZI_Power, ZI_Eff, mask_valid_geo` (XI stored as the per-column
speeds). -/
structure MapGrid where
  XI : List ℚ
  YI : List (List (Option ℚ))
  ZPow : List (List (Option ℚ))
  ZEff : List (List (Option ℚ))
  mask : List (List Bool)
deriving DecidableEq

/-- `process_map_data` (lines 216-331): grid synthesis, then griddata
interpolation (raising when the cloud cannot be triangulated), then the
cutoff masking and the geometry mask. -/
def process_map_data (sstep tstep ss st : ℚ) (df : List MRow) (edge : ℚ → ℚ)
    (interpE interpP : ℚ → ℚ → Option ℚ) : Except PipeError MapGrid :=
  match synthesize_grid sstep tstep df edge with
  | .error e => .error e
  | .ok g =>
    if canTriangulate (df.map (fun r => (r.speed, r.torque))) then
      .ok ⟨g.axis, g.Ycols, gridZ interpP ss st g.axis g.Ycols,
        gridZ interpE ss st g.axis g.Ycols, gridMask ss st g.axis g.Ycols⟩
    else .error .qhullError

/-- Entry `(j, i)` of a column-major matrix. -/
def get2 {α : Type} (g : List (List α)) (j i : ℕ) : Option α :=
  (g.get? j).bind (fun c => c.get? i)

/-! ### Lemmas for the interpolation stage -/

lemma get?_zipWith {α β γ : Type} (f : α → β → γ) :
    ∀ (as : List α) (bs : List β) (j : ℕ) (a : α) (b : β),
      as.get? j = some a → bs.get? j = some b →
      (List.zipWith f as bs).get? j = some (f a b) := by
  intro as
  induction as with
  | nil => intro bs j a b h; simp at h
  | cons x as ih =>
    intro bs j a b h1 h2
    cases bs with
    | nil => simp at h2
    | cons y bs =>
      cases j with
      | zero =>
        simp only [List.get?] at h1 h2
        cases h1; cases h2
        rfl
      | succ j =>
        simp only [List.get?] at h1 h2 ⊢
        exact ih bs j a b h1 h2

lemma foldl_max_le_init (a : ℚ) : ∀ (t : List ℚ), a ≤ t.foldl max a := by
  intro t
  induction t generalizing a with
  | nil => simp
  | cons x t ih => exact le_trans (le_max_left a x) (ih (max a x))

lemma listMax_nonneg (l : List ℚ) (h : ∀ x ∈ l, 0 ≤ x) : 0 ≤ listMax l := by
  cases l with
  | nil => simp [listMax]
  | cons a t =>
    exact le_trans (h a (by simp)) (foldl_max_le_init a t)

lemma synthesize_grid_empty (sstep tstep : ℚ) (edge : ℚ → ℚ) :
    synthesize_grid sstep tstep [] edge = .error .emptyDataset := rfl

lemma synthesize_grid_zero (sstep tstep : ℚ) (df : List MRow) (edge : ℚ → ℚ)
    (hms : maxSpeedOf df = some 0) :
    synthesize_grid sstep tstep df edge = .error .noValidSpeedRange := by
  unfold synthesize_grid
  rw [hms]
  simp

lemma synthesize_grid_ok (sstep tstep : ℚ) (df : List MRow) (edge : ℚ → ℚ) (ms : ℚ)
    (hms : maxSpeedOf df = some ms) (h0 : ms ≠ 0) (hm0 : 0 ≤ ms) (hs : 0 < sstep)
    (ht : 0 < tstep) (he : ∀ x, 0 ≤ edge x) :
    synthesize_grid sstep tstep df edge =
      .ok ⟨speed_axis ms sstep,
        (⌈listMax ((speed_axis ms sstep).map edge) / tstep⌉ + 2).toNat,
        (speed_axis ms sstep).map (fun x =>
          pad_clip (⌈listMax ((speed_axis ms sstep).map edge) / tstep⌉ + 2).toNat
            (fill_column tstep (edge x)))⟩ := by
  have hmx : 0 ≤ listMax ((speed_axis ms sstep).map edge) := by
    apply listMax_nonneg
    intro x hx
    obtain ⟨y, _, rfl⟩ := List.mem_map.mp hx
    exact he y
  have hceil : (0 : ℤ) ≤ ⌈listMax ((speed_axis ms sstep).map edge) / tstep⌉ :=
    Int.ceil_nonneg (div_nonneg hmx ht.le)
  have hdiv : 0 ≤ ms / sstep := div_nonneg hm0 hs.le
  have hn : 0 ≤ pyInt (ms / sstep) := by
    rw [pyInt_of_nonneg _ hdiv]
    exact Int.floor_nonneg.mpr hdiv
  unfold synthesize_grid
  rw [hms]
  dsimp only
  rw [if_neg h0, if_neg hs.ne']
  rw [if_neg (by omega : ¬(pyInt (ms / sstep) + 1 < 0)),
    if_neg (by omega : ¬(pyInt (ms / sstep) + 1 = 0))]
  rw [if_neg (by omega : ¬(⌈listMax ((speed_axis ms sstep).map edge) / tstep⌉ + 2 < 0))]

/-! ### Claim C4 -/

/-- C4: any grid cell whose speed is below StartSpeed or whose torque is
below StartTorque has its Eff and Power entries forced to the sentinel
whatever the interpolation produced; every returned geometry-mask cell
equals (Y is non-sentinel) AND NOT (cutoff), independently of the
interpolant (which is universally quantified); and at a concrete
non-cutoff in-envelope point where the interpolant yields the sentinel
(outside the convex hull), Eff is sentinel while the mask is true; the
layers `process_map_data` returns are exactly these `gridZ`/`gridMask`
matrices. -/
theorem C4_cutoff_and_mask :
    (∀ (ss st x y : ℚ) (zo : Option ℚ), x < ss ∨ y < st →
      applyCutoffZ ss st x (some y) zo = none) ∧
    (∀ (ss st x : ℚ) (yo : Option ℚ),
      geoMaskPoint ss st x yo = (yo.isSome && !cutoffB ss st x yo)) ∧
    (∀ (iE : ℚ → ℚ → Option ℚ) (ss st : ℚ) (axis : List ℚ)
        (Ycols : List (List (Option ℚ))) (j i : ℕ) (x : ℚ)
        (yc : List (Option ℚ)) (yo : Option ℚ),
      axis.get? j = some x → Ycols.get? j = some yc → yc.get? i = some yo →
        get2 (gridZ iE ss st axis Ycols) j i =
          some (applyCutoffZ ss st x yo (yo.bind (iE x))) ∧
        get2 (gridMask ss st axis Ycols) j i = some (geoMaskPoint ss st x yo)) ∧
    (∀ (sstep tstep ss st : ℚ) (df : List MRow) (edge : ℚ → ℚ)
        (iE iP : ℚ → ℚ → Option ℚ) (g : SynthGrid),
      synthesize_grid sstep tstep df edge = .ok g →
      canTriangulate (df.map (fun r => (r.speed, r.torque))) = true →
      process_map_data sstep tstep ss st df edge iE iP =
        .ok ⟨g.axis, g.Ycols, gridZ iP ss st g.axis g.Ycols,
          gridZ iE ss st g.axis g.Ycols, gridMask ss st g.axis g.Ycols⟩) ∧
    (applyCutoffZ 0 0 50 (some 10) ((fun _ _ => (none : Option ℚ)) (50 : ℚ) (10 : ℚ)) = none ∧
      geoMaskPoint 0 0 50 (some (10 : ℚ)) = true) := by
  refine ⟨?_, ?_, ?_, ?_, ?_, ?_⟩
  · intro ss st x y zo h
    simp [applyCutoffZ, h]
  · intro ss st x yo
    cases yo with
    | none => simp [geoMaskPoint, cutoffB]
    | some y => simp [geoMaskPoint, cutoffB]
  · intro iE ss st axis Ycols j i x yc yo hx hyc hyo
    constructor
    · unfold get2 gridZ
      rw [get?_zipWith _ axis Ycols j x yc hx hyc]
      simp only [Option.some_bind]
      rw [List.get?_map, hyo]
      rfl
    · unfold get2 gridMask
      rw [get?_zipWith _ axis Ycols j x yc hx hyc]
      simp only [Option.some_bind]
      rw [List.get?_map, hyo]
      rfl
  · intro sstep tstep ss st df edge iE iP g hok hcan
    unfold process_map_data
    rw [hok]
    dsimp only
    simp [hcan]
  · rfl
  · rfl

/-- Witness for C4 at StartSpeed 20, StartTorque 3 and the grid cell
(x, y) = (10, 5): the cell is in the cutoff region, so its Eff entry is
sentinel even though the interpolant returned a value there. -/
theorem C4_cutoff_and_mask_witness :
    ((10 : ℚ) < 20 ∨ (5 : ℚ) < 3) ∧
      applyCutoffZ 20 3 10 (some 5) (some 93) = none := by
  refine ⟨Or.inl (by norm_num), ?_⟩
  exact C4_cutoff_and_mask.1 20 3 10 5 (some 93) (Or.inl (by norm_num))

/-! ## Area-Ratio Aggregator (MotorEffMAP_Logic.py lines 333-391)

Configuration strings are modelled as character lists; Python `float()`
parsing is an abstract parameter `pf` (`none` models `ValueError`). -/

/-- `step_str.replace(';', ' ').replace(',', ' ').split()`: semicolons
and commas become spaces, then split on whitespace runs, dropping empty
tokens. -/
def pyTokens (s : List Char) : List (List Char) :=
  ((s.map (fun c => if c = ';' ∨ c = ',' then ' ' else c)).splitOnP
    (fun c => c.isWhitespace)).filter (fun t => t ≠ [])

/-- The comprehension `[float(x) for x in tokens]`: `none` when any
token raises `ValueError`. -/
def floatList (pf : List Char → Option ℚ) : List (List Char) → Option (List ℚ)
  | [] => some []
  | t :: ts =>
    match pf t, floatList pf ts with
    | some v, some vs => some (v :: vs)
    | _, _ => none

/-- `_parse_step_string` (lines 333-350): a ':'-separated 2- or 3-part
numeric form becomes an inclusive `np.arange` (a zero step raises inside
the `try` and falls through, like any parse failure, to the
space/comma/semicolon-separated form; that form returns `[]` when any
token fails to parse). -/
def parse_step_string (pf : List Char → Option ℚ) (s : List Char) : List ℚ :=
  let fallback := match floatList pf (pyTokens s) with
    | some vs => vs
    | none => []
  if s.contains ':' then
    match floatList pf (s.splitOn ':') with
    | some parts =>
      match parts with
      | [p0, p1] => arangeGen p0 (p1 + p1 / 1000) 1
      | [p0, p1, p2] => if p1 = 0 then fallback else arangeGen p0 (p2 + p1 / 1000) p1
      | _ => fallback
    | none => fallback
  else fallback

/-- Python `sorted(..., reverse=True)`: descending sort. -/
def sortDesc (l : List ℚ) : List ℚ := List.insertionSort (fun a b => a ≥ b) l

/-- `np.sum(z_eff >= level)` (line 383): the number of cells whose value
is at least `level`; NaN (`none`) cells compare false. -/
def countGE (z : List (Option ℚ)) (lv : ℚ) : ℕ :=
  z.countP (fun o => match o with | some v => decide (lv ≤ v) | none => false)

/-- One `{'Level': .., 'Ratio': ..}` result entry (lines 386-389). -/
structure RatioEntry where
  level : ℚ
  ratio : ℚ
deriving DecidableEq

/-- `calculate_area_ratios` (lines 352-391): thresholds parsed and
sorted descending; denominator from the geometry mask when given, else
the count of non-NaN cells; an empty result when the denominator is 0;
otherwise one `(count ≥ level)/denominator·100` entry per level. -/
def calculate_area_ratios (pf : List Char → Option ℚ) (effStepStr : List Char)
    (z_eff : List (Option ℚ)) (geo_mask : Option (List Bool)) : List RatioEntry :=
  let eff_levels := sortDesc (parse_step_string pf effStepStr)
  let denominator : ℕ := match geo_mask with
    | some m => m.count true
    | none => z_eff.countP (fun o => o.isSome)
  if denominator = 0 then []
  else eff_levels.map (fun lv => ⟨lv, ((countGE z_eff lv : ℚ) / (denominator : ℚ)) * 100⟩)

/-! ### Claim C8 -/

/-- C8: when the maximum speed of the normalized dataset is 0, grid
synthesis returns the distinct `return None` domain signal
(`noValidSpeedRange`) instead of building a degenerate grid; and — for a
positive configured speed-grid step, a positive torque step, a
nonnegative maximum speed (speeds are absolute magnitudes) and a
nonnegative envelope, the conditions of every real run — this is the
only condition on which the grid-synthesis stage aborts.  With a zero or
negative speed-grid step the stage has further abort paths
(`zeroSpeedStep`, `negativeLinspaceNum`, `emptyEdgeMax`), so the
positive-step hypothesis is essential.  `noValidSpeedRange` is distinct
from every exception-modelling error value. -/
theorem C8_zero_speed_domain_error (sstep tstep : ℚ) (df : List MRow)
    (edge : ℚ → ℚ) (ms : ℚ) (hms : maxSpeedOf df = some ms) (hm0 : 0 ≤ ms)
    (hs : 0 < sstep) (ht : 0 < tstep) (he : ∀ x, 0 ≤ edge x) :
    (ms = 0 → synthesize_grid sstep tstep df edge = .error .noValidSpeedRange) ∧
    ((∃ e, synthesize_grid sstep tstep df edge = .error e) ↔ ms = 0) ∧
    (PipeError.noValidSpeedRange ≠ .emptyDataset ∧
      PipeError.noValidSpeedRange ≠ .zeroSpeedStep ∧
      PipeError.noValidSpeedRange ≠ .negativeLinspaceNum ∧
      PipeError.noValidSpeedRange ≠ .emptyEdgeMax ∧
      PipeError.noValidSpeedRange ≠ .qhullError ∧
      PipeError.noValidSpeedRange ≠ .negativeDims) := by
  refine ⟨?_, ⟨?_, ?_⟩, by decide, by decide, by decide, by decide, by decide, by decide⟩
  · intro h0
    exact synthesize_grid_zero sstep tstep df edge (h0 ▸ hms)
  · rintro ⟨e, herr⟩
    by_contra h0
    rw [synthesize_grid_ok sstep tstep df edge ms hms h0 hm0 hs ht he] at herr
    exact Except.noConfusion herr
  · intro h0
    exact ⟨.noValidSpeedRange, synthesize_grid_zero sstep tstep df edge (h0 ▸ hms)⟩

/-- Witness for C8: a one-row dataset whose speed is 0 aborts grid
synthesis with the domain error. -/
theorem C8_zero_speed_domain_error_witness :
    maxSpeedOf [(⟨0, 0, 0, 50, 50, 50, 300⟩ : MRow)] = some 0 ∧
      synthesize_grid 1 1 [(⟨0, 0, 0, 50, 50, 50, 300⟩ : MRow)] (fun _ => 0) =
        .error .noValidSpeedRange := by
  refine ⟨rfl, ?_⟩
  exact (C8_zero_speed_domain_error 1 1 [(⟨0, 0, 0, 50, 50, 50, 300⟩ : MRow)]
    (fun _ => 0) 0 rfl (le_refl 0) (by norm_num) (by norm_num)
    (fun _ => le_refl 0)).1 rfl

/-! ### Claim C6 -/

/-- A normalized dataset whose (speed, torque) cloud is collinear:
`scipy.spatial` cannot triangulate it. -/
def collinearDF : List MRow :=
  [⟨0, 0, 0, 50, 50, 50, 300⟩, ⟨25, 5, 1, 50, 50, 50, 300⟩,
    ⟨50, 10, 2, 50, 50, 50, 300⟩]

/-- C6 counterexample: on a collinear source cloud, `process_map_data`
raises scipy's uncaught `QhullError` (modelled as the `qhullError`
value) instead of returning all-sentinel layers with a geometry mask. -/
theorem C6_counterexample :
    process_map_data 50 5 0 0 collinearDF (fun _ => (10 : ℚ))
      (fun _ _ => none) (fun _ _ => none) = .error .qhullError := by
  have h1 : maxSpeedOf collinearDF = some 50 := by
    norm_num [maxSpeedOf, collinearDF, List.max?, max_def]
  have hok := synthesize_grid_ok 50 5 collinearDF (fun _ => 10) 50 h1
    (by norm_num) (by norm_num) (by norm_num) (by norm_num) (fun _ => by norm_num)
  have h2 : canTriangulate (collinearDF.map (fun r => (r.speed, r.torque))) = false := by
    norm_num [canTriangulate, collinearDF, List.any_cons, List.any_nil]
  unfold process_map_data
  rw [hok]
  dsimp only
  simp [h2]

/-- C6 (amended): the pipeline does not degrade those data errors to
sentinel outputs — an empty normalized dataset makes `process_map_data`
raise (the `int(nan)` ValueError) and makes the envelope extractor raise
(`interp1d` requires 2 points), and an untriangulatable source cloud
makes `process_map_data` raise scipy's QhullError; only the aggregator
degrades gracefully, returning the empty list on a zero geometry-mask
denominator. -/
theorem C6_error_degradation :
    (∀ (sstep tstep ss st : ℚ) (edge : ℚ → ℚ) (iE iP : ℚ → ℚ → Option ℚ),
      process_map_data sstep tstep ss st [] edge iE iP = .error .emptyDataset) ∧
    (∀ (sstep tstep ss st : ℚ) (df : List MRow) (edge : ℚ → ℚ)
        (iE iP : ℚ → ℚ → Option ℚ) (g : SynthGrid),
      synthesize_grid sstep tstep df edge = .ok g →
      canTriangulate (df.map (fun r => (r.speed, r.torque))) = false →
      process_map_data sstep tstep ss st df edge iE iP = .error .qhullError) ∧
    (∀ spline? : Option (ℚ → ℚ),
      get_external_characteristics [] spline? =
        .error "x and y arrays must have at least 2 entries") ∧
    (∀ (pf : List Char → Option ℚ) (s : List Char) (z : List (Option ℚ))
        (m : List Bool), m.count true = 0 →
      calculate_area_ratios pf s z (some m) = []) := by
  refine ⟨?_, ?_, ?_, ?_⟩
  · intro sstep tstep ss st edge iE iP
    rfl
  · intro sstep tstep ss st df edge iE iP g hok hcan
    unfold process_map_data
    rw [hok]
    dsimp only
    simp [hcan]
  · intro spline?
    rfl
  · intro pf s z m hm
    unfold calculate_area_ratios
    dsimp only
    rw [hm]
    simp

/-- Witness for C6 (amended): a mask with no true cell yields the empty
ratio list. -/
theorem C6_error_degradation_witness :
    (([false, false] : List Bool).count true = 0) ∧
      calculate_area_ratios (fun _ => none) [] [some 95, some 80]
        (some [false, false]) = [] := by
  refine ⟨rfl, ?_⟩
  exact C6_error_degradation.2.2.2 (fun _ => none) [] [some 95, some 80]
    [false, false] rfl

/-! ### Claim C5 -/

lemma colZ_isSome_le_mask (interp : ℚ → ℚ → Option ℚ) (ss st x : ℚ)
    (ycol : List (Option ℚ)) :
    (ycol.map (fun yo => applyCutoffZ ss st x yo (yo.bind (interp x)))).countP
        (fun o => o.isSome)
      ≤ (ycol.map (fun yo => geoMaskPoint ss st x yo)).count true := by
  rw [List.count, List.countP_map, List.countP_map]
  apply List.countP_mono_left
  intro yo _ h
  cases yo with
  | none => simp [applyCutoffZ] at h
  | some y =>
    by_cases hc : x < ss ∨ y < st
    · simp [applyCutoffZ, hc] at h
    · push_neg at hc
      simp [geoMaskPoint, not_lt.mpr hc.1, not_lt.mpr hc.2]

lemma gridZ_isSome_le_mask (interp : ℚ → ℚ → Option ℚ) (ss st : ℚ) :
    ∀ (axis : List ℚ) (Ycols : List (List (Option ℚ))),
      ((gridZ interp ss st axis Ycols).flatten).countP (fun o => o.isSome)
        ≤ ((gridMask ss st axis Ycols).flatten).count true := by
  intro axis
  induction axis with
  | nil => intro Ycols; simp [gridZ, gridMask]
  | cons x axis ih =>
    intro Ycols
    cases Ycols with
    | nil => simp [gridZ, gridMask]
    | cons yc Ycols =>
      simp only [gridZ, gridMask, List.zipWith_cons_cons, List.flatten_cons,
        List.countP_append, List.count_append]
      exact Nat.add_le_add (colZ_isSome_le_mask interp ss st x yc) (ih Ycols)

lemma countGE_le_isSome (z : List (Option ℚ)) (lv : ℚ) :
    countGE z lv ≤ z.countP (fun o => o.isSome) := by
  unfold countGE
  apply List.countP_mono_left
  intro o _ ho
  cases o with
  | none => simp at ho
  | some v => simp

lemma countGE_antitone (z : List (Option ℚ)) {lv1 lv2 : ℚ} (h : lv2 ≤ lv1) :
    countGE z lv1 ≤ countGE z lv2 := by
  unfold countGE
  apply List.countP_mono_left
  intro o _ ho
  cases o with
  | none => simp at ho
  | some v =>
    simp only [decide_eq_true_eq] at ho ⊢
    exact le_trans h ho

/-- C5: the non-sentinel cells of every Eff layer the pipeline produces
are a subset of its geometry mask (first conjunct); and for any Eff
layer and geometry mask so related with a positive denominator, the
aggregator's result list has levels in descending order, ratios monotone
non-decreasing as the threshold decreases, and every ratio is a
well-defined rational in [0, 100] (no NaN: the zero denominator is
short-circuited before any division). -/
theorem C5_area_ratio_monotone :
    (∀ (interp : ℚ → ℚ → Option ℚ) (ss st : ℚ) (axis : List ℚ)
        (Ycols : List (List (Option ℚ))),
      ((gridZ interp ss st axis Ycols).flatten).countP (fun o => o.isSome)
        ≤ ((gridMask ss st axis Ycols).flatten).count true) ∧
    (∀ (pf : List Char → Option ℚ) (s : List Char) (z : List (Option ℚ))
        (m : List Bool),
      z.countP (fun o => o.isSome) ≤ m.count true → 0 < m.count true →
      (calculate_area_ratios pf s z (some m)).Pairwise
          (fun a b => a.level ≥ b.level) ∧
        (calculate_area_ratios pf s z (some m)).Pairwise
          (fun a b => a.ratio ≤ b.ratio) ∧
        (∀ e ∈ calculate_area_ratios pf s z (some m),
          0 ≤ e.ratio ∧ e.ratio ≤ 100)) := by
  constructor
  · exact fun interp ss st axis Ycols => gridZ_isSome_le_mask interp ss st axis Ycols
  · intro pf s z m hle hpos
    have hD : (0 : ℚ) < (m.count true : ℚ) := by exact_mod_cast hpos
    unfold calculate_area_ratios
    dsimp only
    rw [if_neg (by omega)]
    have hsorted : (sortDesc (parse_step_string pf s)).Pairwise (fun a b : ℚ => a ≥ b) :=
      List.sorted_insertionSort _ _
    have hmono : ∀ a b : ℚ, a ≥ b →
        ((countGE z a : ℚ) / (m.count true : ℚ)) * 100
          ≤ ((countGE z b : ℚ) / (m.count true : ℚ)) * 100 := by
      intro a b hab
      have h1 : (countGE z a : ℚ) ≤ (countGE z b : ℚ) := by
        exact_mod_cast countGE_antitone z hab
      have h2 : (countGE z a : ℚ) / (m.count true : ℚ)
          ≤ (countGE z b : ℚ) / (m.count true : ℚ) :=
        (div_le_div_iff_of_pos_right hD).mpr h1
      nlinarith
    refine ⟨?_, ?_, ?_⟩
    · exact hsorted.map _ (fun a b hab => hab)
    · exact hsorted.map _ (fun a b hab => hmono a b hab)
    · intro e he
      obtain ⟨lv, _, rfl⟩ := List.mem_map.mp he
      constructor
      · positivity
      · have h1 : (countGE z lv : ℚ) ≤ (m.count true : ℚ) := by
          exact_mod_cast le_trans (countGE_le_isSome z lv) hle
        have h2 : (countGE z lv : ℚ) / (m.count true : ℚ) ≤ 1 :=
          (div_le_one hD).mpr h1
        nlinarith

/-- Witness for C5 at a concrete Eff layer, mask and threshold string:
two non-sentinel cells against a three-cell mask. -/
theorem C5_area_ratio_monotone_witness :
    (([some 95, some 80, none] : List (Option ℚ)).countP (fun o => o.isSome)
        ≤ ([true, true, true] : List Bool).count true) ∧
      (0 < ([true, true, true] : List Bool).count true) ∧
      (∀ e ∈ calculate_area_ratios (fun _ => none) [] [some 95, some 80, none]
          (some [true, true, true]), 0 ≤ e.ratio ∧ e.ratio ≤ 100) := by
  refine ⟨by decide, by decide, ?_⟩
  exact (C5_area_ratio_monotone.2 (fun _ => none) [] [some 95, some 80, none]
    [true, true, true] (by decide) (by decide)).2.2

/-! ### Claim C10 -/

lemma fallback_empty (pf : List Char → Option ℚ) (s : List Char)
    (h : ∀ t ∈ pyTokens s, pf t = none) :
    (match floatList pf (pyTokens s) with
      | some vs => vs
      | none => ([] : List ℚ)) = [] := by
  cases ht : pyTokens s with
  | nil => simp [floatList]
  | cons t ts =>
    have h0 : pf t = none := h t (ht ▸ List.mem_cons_self t ts)
    simp [floatList, h0]

/-- C10: when no numeric threshold can be parsed from the configured
EffMAPStep string (every space/comma/semicolon token fails `float()`,
and the ':' form, when present, also fails), `_parse_step_string`
returns `[]` without raising, and `calculate_area_ratios` consequently
returns the empty result list for every Eff layer and geometry mask —
including masks with a positive denominator — exactly the output of the
no-data empty state. -/
theorem C10_malformed_step_string (pf : List Char → Option ℚ) (s : List Char)
    (h1 : ∀ t ∈ pyTokens s, pf t = none)
    (h2 : s.contains ':' = true → floatList pf (s.splitOn ':') = none) :
    parse_step_string pf s = [] ∧
    (∀ (z : List (Option ℚ)) (gm : Option (List Bool)),
      calculate_area_ratios pf s z gm = []) ∧
    (∀ (z : List (Option ℚ)) (gm : Option (List Bool)),
      calculate_area_ratios pf s z gm =
        calculate_area_ratios pf s [] (some [])) := by
  have hfb := fallback_empty pf s h1
  have hparse : parse_step_string pf s = [] := by
    unfold parse_step_string
    dsimp only
    by_cases hc : s.contains ':'
    · rw [if_pos hc, h2 hc]
      exact hfb
    · rw [if_neg hc]
      exact hfb
  have hcar : ∀ (z : List (Option ℚ)) (gm : Option (List Bool)),
      calculate_area_ratios pf s z gm = [] := by
    intro z gm
    unfold calculate_area_ratios
    dsimp only
    rw [hparse]
    by_cases hd : (match gm with
      | some m => m.count true
      | none => z.countP (fun o => o.isSome)) = 0
    · rw [if_pos hd]
    · rw [if_neg hd]
      simp [sortDesc]
  exact ⟨hparse, hcar, fun z gm => by rw [hcar z gm, hcar [] (some [])]⟩

/-- Witness for C10 at the unparseable string "abc" (as a character
list) and a mask with a positive denominator. -/
theorem C10_malformed_step_string_witness :
    parse_step_string (fun _ => none) [Char.ofNat 97, Char.ofNat 98, Char.ofNat 99] = [] ∧
      calculate_area_ratios (fun _ => none)
        [Char.ofNat 97, Char.ofNat 98, Char.ofNat 99] [some 95, some 80]
        (some [true, true]) = [] := by
  refine ⟨?_, ?_⟩
  · exact (C10_malformed_step_string (fun _ => none) _ (fun t _ => rfl)
      (fun h => by rfl)).1
  · exact (C10_malformed_step_string (fun _ => none) _ (fun t _ => rfl)
      (fun h => by rfl)).2.1 [some 95, some 80] (some [true, true])
